import Mathlib

/-!
# Verification of the necrobot database engine (`necrobot/botbase/necrodb.py`)

A shallow embedding of the race-results ledger: the relational store is a
record of lists of rows, and each public function of `necrodb.py` becomes a
pure function on that store.  SQL statements are translated clause by clause:
`INSERT` appends a row, `UPDATE ... WHERE` maps over matching rows,
`INSERT ... ON DUPLICATE KEY UPDATE` is an upsert on the table's key,
`SELECT ... ORDER BY c DESC LIMIT 1` is a maximum, joins are products filtered
on the join condition.  `DBConnect.__exit__` is embedded exactly as written:
it commits whenever `commit=True`, ignoring the exception arguments.
Python's stable `list.sort` is embedded as `List.insertionSort`, which places
an element before the equal-key elements of the already-sorted suffix and
therefore preserves input order on ties exactly as a stable sort does.
-/

namespace NecroDB

/-- A row of the `user_data` table. -/
structure UserRow where
  discord_id : Int
  name : String
  twitch_name : Option String
  rtmp_name : Option String
  timezone : Option String
  user_info : Option String
  daily_alert : Bool
  race_alert : Bool
deriving DecidableEq

/-- A row of the `race_data` table. -/
structure RaceRow where
  race_id : Int
  timestamp : String
  character_name : String
  descriptor : String
  flags : Int
  seed : Int
  seeded : Bool
  amplified : Bool
  condor : Bool
  private_race : Bool
deriving DecidableEq

/-- A row of the `racer_data` table. -/
structure RacerRow where
  race_id : Int
  discord_id : Int
  time : Int
  rank : Int
  igt : Int
  comment : String
  level : Int
deriving DecidableEq

/-- A row of the `daily_races` table. -/
structure DailyRow where
  discord_id : Int
  daily_id : Int
  dtype : Int
  level : Int
  time : Int
deriving DecidableEq

/-- A row of the `ladder_data` table. -/
structure LadderRow where
  discord_id : Int
  trueskill_mu : Rat
  trueskill_sigma : Rat
deriving DecidableEq

/-- The whole relational store. -/
structure Store where
  user_data : List UserRow
  race_data : List RaceRow
  racer_data : List RacerRow
  daily_races : List DailyRow
  ladder_data : List LadderRow
deriving DecidableEq

def emptyStore : Store := ⟨[], [], [], [], []⟩

/-- One participant of a race, as handed to `record_race` (`racer.id`,
`racer.name`, `racer.time`, `racer.igt`, `racer.comment`, `racer.level`,
`racer.is_finished`). -/
structure Racer where
  id : Int
  name : String
  time : Int
  igt : Int
  comment : String
  level : Int
  is_finished : Bool
deriving DecidableEq

/-- The `race.race_info` fields read by `record_race`. -/
structure RaceInfo where
  character_str : String
  descriptor : String
  flags : Int
  seed : Int
  seeded : Bool
  amplified : Bool
  condor_race : Bool
  private_race : Bool
deriving DecidableEq

/-- The `race` argument of `record_race`; `start_datetime` is kept as its
already-formatted timestamp string. -/
structure Race where
  start_datetime : String
  race_info : RaceInfo
  racers : List Racer
deriving DecidableEq

/-! ## User upserts (`register_user`, and the upsert inside `record_race`)

`INSERT INTO user_data (discord_id, name) VALUES (...) ON DUPLICATE KEY
UPDATE name=VALUES(name)`: if a row with the key exists, only `name` is
overwritten; otherwise a fresh row is inserted with every other column at
its unset default. -/

def newUserRow (id : Int) (name : String) : UserRow :=
  ⟨id, name, none, none, none, none, false, false⟩

def upsertUserRows (id : Int) (name : String) (l : List UserRow) : List UserRow :=
  if l.any (fun u => u.discord_id == id) then
    l.map (fun u => if u.discord_id == id then { u with name := name } else u)
  else
    l ++ [newUserRow id name]

/-- `register_user(member)` (necrodb.py lines 205-214). -/
def register_user (s : Store) (id : Int) (name : String) : Store :=
  { s with user_data := upsertUserRows id name s.user_data }

/-! ## `record_race` (necrodb.py lines 134-189) -/

/-- `SELECT race_id FROM race_data ORDER BY race_id DESC LIMIT 1`:
the maximum `race_id`, if any. -/
def maxRaceId : List RaceRow → Option Int
  | [] => none
  | rd :: rds =>
      match maxRaceId rds with
      | none => some rd.race_id
      | some m => some (max rd.race_id m)

/-- `new_raceid = 0`, overwritten with `row[0] + 1` when the table has rows. -/
def new_raceid (s : Store) : Int :=
  match maxRaceId s.race_data with
  | none => 0
  | some m => m + 1

/-- The running `max_time` of the loop over `race.racers` (starts at 0,
takes `max(racer.time, max_time)` for each finished racer). -/
def maxTimeOf (racers : List Racer) : Int :=
  racers.foldl (fun m r => if r.is_finished then max r.time m else m) 0

/-- The sort key of `racer_list.sort`: `r.time if r.is_finished else max_time`,
where the `max_time` passed here is the already-incremented one. -/
def sortKey (maxT : Int) (r : Racer) : Int :=
  if r.is_finished then r.time else maxT

/-- The comparison used by `racer_list.sort`: effective times in
non-decreasing order. -/
def raceRel (racers : List Racer) (a b : Racer) : Prop :=
  sortKey (maxTimeOf racers + 1) a ≤ sortKey (maxTimeOf racers + 1) b

instance raceRelDec (racers : List Racer) : DecidableRel (raceRel racers) :=
  fun _ _ => Int.decLe _ _

/-- `racer_list.sort(key=...)` — Python's sort is stable, as is
`List.insertionSort`. -/
def sortedRacers (racers : List Racer) : List Racer :=
  List.insertionSort (raceRel racers) racers

/-- The race row inserted by `record_race`. -/
def raceRowOf (race : Race) (rid : Int) : RaceRow :=
  ⟨rid, race.start_datetime, race.race_info.character_str, race.race_info.descriptor,
   race.race_info.flags, race.race_info.seed, race.race_info.seeded,
   race.race_info.amplified, race.race_info.condor_race, race.race_info.private_race⟩

/-- The racer row inserted for one racer at the current counter value. -/
def racerRowOf (rid : Int) (rank : Int) (r : Racer) : RacerRow :=
  ⟨rid, r.id, r.time, rank, r.igt, r.comment, r.level⟩

/-- The rank-assignment loop: emit a row at the current counter, then
increment the counter only when the racer is finished. -/
def assignRanks (rid : Int) (rank : Int) : List Racer → List RacerRow
  | [] => []
  | r :: rs =>
      racerRowOf rid rank r ::
        assignRanks rid (if r.is_finished then rank + 1 else rank) rs

/-- The racer rows persisted by one `record_race` call. -/
def raceResultRows (race : Race) (rid : Int) : List RacerRow :=
  assignRanks rid 1 (sortedRacers race.racers)

/-- One SQL statement executed inside the `record_race` transaction. -/
inductive Stmt where
  | insertRace (rd : RaceRow)
  | insertRacer (rr : RacerRow)
  | upsertUser (id : Int) (name : String)
deriving DecidableEq

def applyStmt (s : Store) : Stmt → Store
  | .insertRace rd => { s with race_data := s.race_data ++ [rd] }
  | .insertRacer rr => { s with racer_data := s.racer_data ++ [rr] }
  | .upsertUser id name => { s with user_data := upsertUserRows id name s.user_data }

/-- The per-racer loop of `record_race`: a racer-row insert then a user
upsert for each racer in sorted order, threading the rank counter. -/
def racerLoop (rid : Int) (rank : Int) : List Racer → List Stmt
  | [] => []
  | r :: rs =>
      Stmt.insertRacer (racerRowOf rid rank r) ::
      Stmt.upsertUser r.id r.name ::
      racerLoop rid (if r.is_finished then rank + 1 else rank) rs

/-- All statements executed by one `record_race(race)` call, in order. -/
def record_race_stmts (s : Store) (race : Race) : List Stmt :=
  Stmt.insertRace (raceRowOf race (new_raceid s)) ::
    racerLoop (new_raceid s) 1 (sortedRacers race.racers)

def runStmts (s : Store) (l : List Stmt) : Store := l.foldl applyStmt s

/-- `record_race(race)` (necrodb.py lines 134-189) run to completion. -/
def record_race (s : Store) (race : Race) : Store :=
  runStmts s (record_race_stmts s race)

/-- `DBConnect.__exit__(exc_type, exc_val, exc_tb)` (necrodb.py lines 31-34):
commits whenever the scope was opened with `commit=True`; the exception
arguments are not consulted, so the pending work is committed even when the
body raised. -/
def DBConnect_exit (commit : Bool) (_exc_raised : Bool) (base pending : Store) : Store :=
  if commit then pending else base

/-- A `record_race` call whose (k+1)-th statement raises: the first `k`
statements execute, the exception propagates through `__exit__`, which
commits them. -/
def record_race_failingAfter (s : Store) (race : Race) (k : Nat) : Store :=
  DBConnect_exit true true s (runStmts s ((record_race_stmts s race).take k))

/-! ## User preferences (`get_prefs`, necrodb.py lines 96-109)

`fetchone()` is the first matching row, or Python `None` when there is no
match; in that case `prefs_row[0]` raises `TypeError`, which is embedded as
`none` (the hard-failure outcome).  The call runs a single `SELECT` with
`commit=False`, so it is a pure function of the store. -/

structure UserPrefs where
  daily_alert : Bool
  race_alert : Bool
deriving DecidableEq

def get_prefs (s : Store) (id : Int) : Option UserPrefs :=
  match s.user_data.find? (fun u => u.discord_id == id) with
  | none => none
  | some u => some ⟨u.daily_alert, u.race_alert⟩

/-! ## Daily challenge tracker (necrodb.py lines 240-311) -/

def dailyKeyMatch (id did dt : Int) (row : DailyRow) : Bool :=
  row.discord_id == id && row.daily_id == did && row.dtype == dt

/-- `register_daily` (lines 262-275): upsert on the composite key
`(discord_id, daily_id, type)` replacing `level` and `time`. -/
def register_daily (s : Store) (id did dt level time : Int) : Store :=
  if s.daily_races.any (dailyKeyMatch id did dt) then
    { s with daily_races :=
        s.daily_races.map (fun row =>
          if dailyKeyMatch id did dt row then { row with level := level, time := time }
          else row) }
  else
    { s with daily_races := s.daily_races ++ [⟨id, did, dt, level, time⟩] }

/-- `delete_from_daily` (lines 304-311): `UPDATE daily_races SET level=-1
WHERE discord_id=%s AND daily_id=%s AND type=%s`. -/
def delete_from_daily (s : Store) (id did dt : Int) : Store :=
  { s with daily_races :=
      s.daily_races.map (fun row =>
        if dailyKeyMatch id did dt row then { row with level := -1 } else row) }

/-- `has_submitted_daily` (lines 240-248): a matching row with
`level != -1` exists. -/
def has_submitted_daily (s : Store) (id did dt : Int) : Bool :=
  s.daily_races.any (fun row => dailyKeyMatch id did dt row && !(row.level == -1))

/-- `has_registered_daily` (lines 251-259): a matching row exists. -/
def has_registered_daily (s : Store) (id did dt : Int) : Bool :=
  s.daily_races.any (dailyKeyMatch id did dt)

/-- The SQL text sent by `submitted_daily` (lines 291-301), built by the same
adjacent-string concatenation as the source.  The third fragment ends in
`-1` with no trailing space and the fourth starts with `ORDER BY`. -/
def submitted_daily_query : String :=
  "SELECT daily_id " ++
  "FROM daily_races " ++
  "WHERE discord_id=%s AND type=%s AND level != -1" ++
  "ORDER BY daily_id DESC " ++
  "LIMIT 1"

/-! ## Profile setters (necrodb.py lines 462-499)

Each is `UPDATE user_data SET col=%s WHERE discord_id=%s`: every matching
row has the one named column overwritten; with no matching row zero rows are
affected and no error is raised. -/

def set_timezone (s : Store) (id : Int) (timezone : String) : Store :=
  { s with user_data :=
      s.user_data.map (fun u =>
        if u.discord_id == id then { u with timezone := some timezone } else u) }

def set_rtmp (s : Store) (id : Int) (rtmp_name : String) : Store :=
  { s with user_data :=
      s.user_data.map (fun u =>
        if u.discord_id == id then { u with rtmp_name := some rtmp_name } else u) }

def set_twitch (s : Store) (id : Int) (twitch_name : String) : Store :=
  { s with user_data :=
      s.user_data.map (fun u =>
        if u.discord_id == id then { u with twitch_name := some twitch_name } else u) }

def set_user_info (s : Store) (id : Int) (user_info : String) : Store :=
  { s with user_data :=
      s.user_data.map (fun u =>
        if u.discord_id == id then { u with user_info := some user_info } else u) }

/-! ## Rating store (necrodb.py lines 502-524)

`set_rating` hands `rating.mu` and `rating.sigma` to the driver unchanged
(the stored value is modelled exactly); `get_rating` reads them back through
Python's `int(...)`, which truncates toward zero. -/

structure Rating where
  mu : Rat
  sigma : Rat
deriving DecidableEq

/-- `create_rating(mu=..., sigma=...)` of `necrobot/ladder/rating.py`,
called by `get_rating` with integer arguments (treated as the opaque
constructor of a Rating from the two numbers, per the interface boundary). -/
def create_rating (mu sigma : Int) : Rating :=
  ⟨(mu : Rat), (sigma : Rat)⟩

/-- Python `int(x)` on a real number: truncation toward zero. -/
def pyInt (q : Rat) : Int :=
  if 0 ≤ q then ⌊q⌋ else ⌈q⌉

/-- `set_rating` (lines 502-512): upsert of `(trueskill_mu, trueskill_sigma)`
keyed on `discord_id`. -/
def set_rating (s : Store) (id : Int) (r : Rating) : Store :=
  if s.ladder_data.any (fun row => row.discord_id == id) then
    { s with ladder_data :=
        s.ladder_data.map (fun row =>
          if row.discord_id == id then
            { row with trueskill_mu := r.mu, trueskill_sigma := r.sigma }
          else row) }
  else
    { s with ladder_data := s.ladder_data ++ [⟨id, r.mu, r.sigma⟩] }

/-- `get_rating` (lines 515-524): `fetchone()` on the keyed `SELECT`, then
`create_rating(mu=int(row[0]), sigma=int(row[1]))`, or `None` if no row. -/
def get_rating (s : Store) (id : Int) : Option Rating :=
  match s.ladder_data.find? (fun row => row.discord_id == id) with
  | none => none
  | some row => some (create_rating (pyInt row.trueskill_mu) (pyInt row.trueskill_sigma))

/-! ## `get_fastest_times_leaderboard` (necrodb.py lines 378-404) -/

/-- The `WHERE` clause of the inner sub-select `rd1`. -/
def qualifies (char : String) (amp : Bool) (rr : RacerRow) (rd : RaceRow) : Bool :=
  rr.time > 0 && rr.level == -2 &&
  rd.character_name == char &&
  rd.descriptor == "All-zones" &&
  rd.seeded &&
  (if amp then rd.amplified else !rd.amplified) &&
  !rd.private_race

/-- `racer_data INNER JOIN race_data ON race_data.race_id = racer_data.race_id`. -/
def joined (s : Store) : List (RacerRow × RaceRow) :=
  s.racer_data.flatMap (fun rr =>
    (s.race_data.filter (fun rd => rd.race_id == rr.race_id)).map (fun rd => (rr, rd)))

def minOfTimes : List Int → Option Int
  | [] => none
  | t :: ts =>
      match minOfTimes ts with
      | none => some t
      | some m => some (min t m)

/-- The `rd1` sub-select, looked up by `discord_id`: `MIN(time)` over the
user's qualifying joined rows, or `none` when the user has no qualifying row
(so the `GROUP BY` emits no group and the inner join drops the user). -/
def min_qual_time (char : String) (amp : Bool) (s : Store) (uid : Int) : Option Int :=
  minOfTimes
    (((joined s).filter
        (fun p => p.1.discord_id == uid && qualifies char amp p.1 p.2)).map
      (fun p => p.1.time))

/-- One output row: `(user_data.name, racer_data.time, race_data.seed,
race_data.timestamp)`. -/
structure LBRow where
  name : String
  time : Int
  seed : Int
  timestamp : String
deriving DecidableEq

/-- The outer query before `ORDER BY`/`LIMIT`: every joined
`(racer_data, race_data)` pair of a user present in `rd1`, joined with
`user_data`, kept when `racer_data.time = rd1.min_time`.  The outer `WHERE`
re-applies none of the qualifying filters. -/
def outerRows (char : String) (amp : Bool) (s : Store) : List LBRow :=
  (joined s).flatMap (fun p =>
    match min_qual_time char amp s p.1.discord_id with
    | none => []
    | some m =>
        if p.1.time == m then
          (s.user_data.filter (fun u => u.discord_id == p.1.discord_id)).map
            (fun u => ⟨u.name, p.1.time, p.2.seed, p.2.timestamp⟩)
        else [])

/-- `get_fastest_times_leaderboard(character_name, amplified, limit)`:
the outer rows ordered by time ascending, truncated to `limit`. -/
def get_fastest_times_leaderboard (char : String) (amp : Bool) (lim : Nat) (s : Store) :
    List LBRow :=
  (List.insertionSort (fun a b => a.time ≤ b.time) (outerRows char amp s)).take lim

/-! ## Row-agreement predicates used to state frame conditions -/

/-- `v` agrees with `u` on every `user_data` column except `name`. -/
def sameExceptName (u v : UserRow) : Prop :=
  v.discord_id = u.discord_id ∧ v.twitch_name = u.twitch_name ∧
  v.rtmp_name = u.rtmp_name ∧ v.timezone = u.timezone ∧
  v.user_info = u.user_info ∧ v.daily_alert = u.daily_alert ∧ v.race_alert = u.race_alert

/-- `v` agrees with `u` on every `user_data` column except `timezone`. -/
def sameExceptTimezone (u v : UserRow) : Prop :=
  v.discord_id = u.discord_id ∧ v.name = u.name ∧ v.twitch_name = u.twitch_name ∧
  v.rtmp_name = u.rtmp_name ∧ v.user_info = u.user_info ∧
  v.daily_alert = u.daily_alert ∧ v.race_alert = u.race_alert

/-- `v` agrees with `u` on every `user_data` column except `rtmp_name`. -/
def sameExceptRtmp (u v : UserRow) : Prop :=
  v.discord_id = u.discord_id ∧ v.name = u.name ∧ v.twitch_name = u.twitch_name ∧
  v.timezone = u.timezone ∧ v.user_info = u.user_info ∧
  v.daily_alert = u.daily_alert ∧ v.race_alert = u.race_alert

/-- `v` agrees with `u` on every `user_data` column except `twitch_name`. -/
def sameExceptTwitch (u v : UserRow) : Prop :=
  v.discord_id = u.discord_id ∧ v.name = u.name ∧ v.rtmp_name = u.rtmp_name ∧
  v.timezone = u.timezone ∧ v.user_info = u.user_info ∧
  v.daily_alert = u.daily_alert ∧ v.race_alert = u.race_alert

/-- `v` agrees with `u` on every `user_data` column except `user_info`. -/
def sameExceptUserInfo (u v : UserRow) : Prop :=
  v.discord_id = u.discord_id ∧ v.name = u.name ∧ v.twitch_name = u.twitch_name ∧
  v.rtmp_name = u.rtmp_name ∧ v.timezone = u.timezone ∧
  v.daily_alert = u.daily_alert ∧ v.race_alert = u.race_alert

/-! ## Concrete inputs used by counterexamples and witnesses -/

/-- Finisher with time 10. -/
def racerF1 : Racer := ⟨1, "a", 10, 0, "", -2, true⟩

/-- Finisher with time 20. -/
def racerF2 : Racer := ⟨2, "b", 20, 0, "", -2, true⟩

/-- Finisher with time 30. -/
def racerF3 : Racer := ⟨3, "c", 30, 0, "", -2, true⟩

/-- A non-finisher. -/
def racerNF : Racer := ⟨4, "d", 0, 0, "", -1, false⟩

def raceInfoA : RaceInfo := ⟨"Cadence", "All-zones", 0, 11, true, true, false, false⟩

/-- Three finishers with times 10 < 20 < 30 and one non-finisher. -/
def raceA : Race := ⟨"2017-01-01 00:00:00", raceInfoA, [racerF2, racerNF, racerF1, racerF3]⟩

/-- A store where user 1 has one qualifying Cadence race (seed 111, time 100)
and one private race with the same time 100 (seed 222). -/
def storeLB : Store :=
  ⟨[⟨1, "alice", none, none, none, none, false, false⟩],
   [⟨0, "ts0", "Cadence", "All-zones", 0, 111, true, true, false, false⟩,
    ⟨1, "ts1", "Cadence", "All-zones", 0, 222, true, true, false, true⟩],
   [⟨0, 1, 100, 1, 0, "", -2⟩, ⟨1, 1, 100, 1, 0, "", -2⟩],
   [], []⟩

/-- A store with a single user row, discord_id 7. -/
def storeU7 : Store :=
  ⟨[⟨7, "u", some "tw", some "rt", some "tz", some "info", true, false⟩], [], [], [], []⟩

/-- A store with a single race row, race_id 5. -/
def storeR5 : Store :=
  ⟨[], [⟨5, "ts", "Cadence", "All-zones", 0, 1, true, true, false, false⟩], [], [], []⟩

/-! # Theorems -/

/-! ## Generic list helpers -/

theorem map_id_of_mem {α : Type} (f : α → α) :
    ∀ l : List α, (∀ x ∈ l, f x = x) → l.map f = l
  | [], _ => rfl
  | x :: xs, h => by
      simp only [List.map_cons]
      rw [h x (List.mem_cons_self x xs), map_id_of_mem f xs (fun y hy => h y (List.mem_cons_of_mem x hy))]

theorem pairwise_key_inj {α : Type} (key : α → Int) :
    ∀ l : List α, l.Pairwise (fun a b => key a ≠ key b) →
      ∀ a ∈ l, ∀ b ∈ l, key a = key b → a = b
  | [], _, a, ha, _, _, _ => absurd ha (List.not_mem_nil a)
  | x :: xs, h, a, ha, b, hb, hk => by
      rcases List.pairwise_cons.mp h with ⟨hx, hxs⟩
      rcases List.mem_cons.mp ha with ha' | ha' <;> rcases List.mem_cons.mp hb with hb' | hb'
      · rw [ha', hb']
      · exact absurd hk (ha' ▸ hx b hb')
      · exact absurd hk.symm (hb' ▸ hx a ha')
      · exact pairwise_key_inj key xs hxs a ha' b hb' hk

theorem find?_map_of_pred {α : Type} (f : α → α) (p : α → Bool)
    (hp : ∀ x, p (f x) = p x) :
    ∀ l : List α, (l.map f).find? p = (l.find? p).map f
  | [] => rfl
  | x :: xs => by
      simp only [List.map_cons, List.find?]
      rw [hp x]
      cases h : p x
      · simpa [h] using find?_map_of_pred f p hp xs
      · simp [h]

theorem find?_append_of_none {α : Type} (p : α → Bool) :
    ∀ l l2 : List α, l.find? p = none → (l ++ l2).find? p = l2.find? p
  | [], _, _ => rfl
  | x :: xs, l2, h => by
      simp only [List.find?] at h ⊢
      cases hx : p x
      · simp only [hx] at h
        simpa [hx] using find?_append_of_none p xs l2 h
      · simp [hx] at h

theorem any_map_eq {α : Type} (f : α → α) (p q : α → Bool) (h : ∀ x, p (f x) = q x) :
    ∀ l : List α, (l.map f).any p = l.any q
  | [] => rfl
  | x :: xs => by
      simp only [List.map_cons, List.any_cons]
      rw [h x, any_map_eq f p q h xs]

theorem filter_map_of_pred {α : Type} (f : α → α) (p : α → Bool)
    (hp : ∀ x, p (f x) = p x) :
    ∀ l : List α, (l.map f).filter p = (l.filter p).map f
  | [] => rfl
  | x :: xs => by
      simp only [List.map_cons, List.filter]
      rw [hp x]
      cases h : p x
      · simpa using filter_map_of_pred f p hp xs
      · simpa using filter_map_of_pred f p hp xs

/-! ## C5: the `submitted_daily` query string -/

/-- C5: `submitted_daily` concatenates its `WHERE` fragment, which ends in
`-1` with no trailing space, directly onto `ORDER BY ...`, producing the
malformed SQL text `... level != -1ORDER BY daily_id DESC LIMIT 1` (not the
well-formed text with a space), so every call sends a query the database
rejects with a syntax error instead of returning the latest submitted
daily_id. -/
theorem submitted_daily_query_malformed :
    submitted_daily_query =
      "SELECT daily_id FROM daily_races WHERE discord_id=%s AND type=%s AND level != -1ORDER BY daily_id DESC LIMIT 1" ∧
    submitted_daily_query ≠
      "SELECT daily_id FROM daily_races WHERE discord_id=%s AND type=%s AND level != -1 ORDER BY daily_id DESC LIMIT 1" :=
  ⟨rfl, by decide⟩

/-! ## C6: rating round-trip truncates toward zero -/

theorem find?_set_rating (id : Int) (mu sigma : Rat) :
    ∀ l : List LadderRow,
      ((if l.any (fun row => row.discord_id == id) then
          l.map (fun row =>
            if row.discord_id == id then
              { row with trueskill_mu := mu, trueskill_sigma := sigma }
            else row)
        else l ++ [⟨id, mu, sigma⟩]).find? (fun row => row.discord_id == id)) =
        some ⟨id, mu, sigma⟩ ∨
      ∃ row0 : LadderRow, row0.discord_id = id ∧
        ((if l.any (fun row => row.discord_id == id) then
            l.map (fun row =>
              if row.discord_id == id then
                { row with trueskill_mu := mu, trueskill_sigma := sigma }
              else row)
          else l ++ [⟨id, mu, sigma⟩]).find? (fun row => row.discord_id == id)) =
          some { row0 with trueskill_mu := mu, trueskill_sigma := sigma } := by
  intro l
  by_cases h : l.any (fun row => row.discord_id == id) = true
  · right
    rw [if_pos h]
    have hpres : ∀ x : LadderRow,
        ((if x.discord_id == id then
            { x with trueskill_mu := mu, trueskill_sigma := sigma } else x).discord_id == id)
          = (x.discord_id == id) := by
      intro x
      by_cases hx : x.discord_id = id <;> simp [hx]
    rw [find?_map_of_pred _ _ hpres l]
    have hsome : (l.find? (fun row => row.discord_id == id)).isSome := by
      rw [List.find?_isSome]
      rcases List.any_eq_true.mp h with ⟨x, hx, hpx⟩
      exact ⟨x, hx, hpx⟩
    rcases Option.isSome_iff_exists.mp hsome with ⟨row0, hrow0⟩
    have hkey := List.find?_some hrow0
    have hid : row0.discord_id = id := by simpa using hkey
    refine ⟨row0, hid, ?_⟩
    rw [hrow0]
    simp [hid]
  · left
    rw [if_neg h]
    have hnone : l.find? (fun row => row.discord_id == id) = none := by
      rw [List.find?_eq_none]
      intro x hx hpx
      exact h (List.any_eq_true.mpr ⟨x, hx, hpx⟩)
    rw [find?_append_of_none _ l _ hnone]
    simp [List.find?]

/-- C6: `set_rating` followed by `get_rating` returns the stored pair passed
through Python `int(...)`, i.e. truncated toward zero; in particular storing
`mu = 25.7`, `sigma = 8.3` reads back as `(25, 8)`, not the rounded `(26, 8)`. -/
theorem set_get_rating_truncates (s : Store) (id : Int) (mu sigma : Rat) :
    get_rating (set_rating s id ⟨mu, sigma⟩) id
      = some (create_rating (pyInt mu) (pyInt sigma)) ∧
    get_rating (set_rating s id ⟨(257 : Rat)/10, (83 : Rat)/10⟩) id
      = some (create_rating 25 8) ∧
    create_rating 25 8 ≠ create_rating 26 8 := by
  have main : ∀ (s' : Store) (mu' sigma' : Rat),
      get_rating (set_rating s' id ⟨mu', sigma'⟩) id
        = some (create_rating (pyInt mu') (pyInt sigma')) := by
    intro s' mu' sigma'
    show (match (set_rating s' id ⟨mu', sigma'⟩).ladder_data.find?
            (fun row => row.discord_id == id) with
          | none => none
          | some row => some (create_rating (pyInt row.trueskill_mu) (pyInt row.trueskill_sigma)))
        = some (create_rating (pyInt mu') (pyInt sigma'))
    have hset : (set_rating s' id ⟨mu', sigma'⟩).ladder_data =
        (if s'.ladder_data.any (fun row => row.discord_id == id) then
          s'.ladder_data.map (fun row =>
            if row.discord_id == id then
              { row with trueskill_mu := mu', trueskill_sigma := sigma' }
            else row)
        else s'.ladder_data ++ [⟨id, mu', sigma'⟩]) := by
      unfold set_rating
      by_cases h : s'.ladder_data.any (fun row => row.discord_id == id) = true
      · rw [if_pos h, if_pos h]
      · rw [if_neg h, if_neg h]
    rw [hset]
    rcases find?_set_rating id mu' sigma' s'.ladder_data with hfind | ⟨row0, _, hfind⟩
    · rw [hfind]
    · rw [hfind]
  refine ⟨main s mu sigma, ?_, ?_⟩
  · rw [main s ((257 : Rat)/10) ((83 : Rat)/10)]
    norm_num [pyInt, create_rating]
  · intro h
    have : (25 : Rat) = 26 := congrArg Rating.mu h
    norm_num at this

/-! ## C2: `record_race` partial commit on failure -/

/-- C2 counterexample: a `record_race` call on the empty store whose second
statement (the first racer-row insert) raises leaves a store different from
the one before the call — the claim that the store after a failed call
equals the store before it is false. -/
theorem record_race_failure_changes_store :
    record_race_failingAfter emptyStore raceA 1 ≠ emptyStore := by decide

/-- C2 amended: `DBConnect.__exit__` commits whenever the scope was opened
with `commit=True`, ignoring whether an exception was raised, so a
`record_race` call that fails after its first statement persists the race
row (with no racer rows): the already-executed statements are committed, and
`record_race` is not atomic. -/
theorem record_race_partial_commit (s : Store) (race : Race) (exc : Bool) :
    record_race_failingAfter s race 1 =
      { s with race_data := s.race_data ++ [raceRowOf race (new_raceid s)] } ∧
    DBConnect_exit true exc s (runStmts s (record_race_stmts s race)) =
      record_race s race := ⟨rfl, rfl⟩

/-! ## C8: register, withdraw, then query -/

theorem submitted_after_delete (id did dt : Int) :
    ∀ l : List DailyRow,
      ((l.map (fun row =>
          if dailyKeyMatch id did dt row then { row with level := -1 } else row)).any
        (fun row => dailyKeyMatch id did dt row && !(row.level == -1))) = false
  | [] => rfl
  | x :: xs => by
      simp only [List.map_cons, List.any_cons]
      rw [submitted_after_delete id did dt xs]
      by_cases hx : dailyKeyMatch id did dt x = true
      · have : dailyKeyMatch id did dt { x with level := -1 } = dailyKeyMatch id did dt x := by
          simp [dailyKeyMatch]
        simp [hx, this]
      · simp [hx]

theorem any_key_after_delete (id did dt : Int) :
    ∀ l : List DailyRow,
      ((l.map (fun row =>
          if dailyKeyMatch id did dt row then { row with level := -1 } else row)).any
        (dailyKeyMatch id did dt)) = l.any (dailyKeyMatch id did dt) := by
  intro l
  apply any_map_eq
  intro x
  by_cases hx : dailyKeyMatch id did dt x = true
  · have : dailyKeyMatch id did dt { x with level := -1 } = dailyKeyMatch id did dt x := by
      simp [dailyKeyMatch]
    simp [hx, this]
  · simp [hx]

theorem register_daily_rows (s : Store) (id did dt level time : Int) :
    (register_daily s id did dt level time).daily_races =
      (if s.daily_races.any (dailyKeyMatch id did dt) then
        s.daily_races.map (fun row =>
          if dailyKeyMatch id did dt row then { row with level := level, time := time }
          else row)
      else s.daily_races ++ [⟨id, did, dt, level, time⟩]) := by
  unfold register_daily
  by_cases h : s.daily_races.any (dailyKeyMatch id did dt) = true
  · rw [if_pos h, if_pos h]
  · rw [if_neg h, if_neg h]

theorem any_key_register_daily (s : Store) (id did dt level time : Int) :
    ((register_daily s id did dt level time).daily_races.any (dailyKeyMatch id did dt))
      = true := by
  rw [register_daily_rows]
  by_cases h : s.daily_races.any (dailyKeyMatch id did dt) = true
  · rw [if_pos h]
    have heq := any_map_eq
      (fun row =>
        if dailyKeyMatch id did dt row then { row with level := level, time := time } else row)
      (dailyKeyMatch id did dt) (dailyKeyMatch id did dt)
      (by
        intro x
        by_cases hx : dailyKeyMatch id did dt x = true
        · have : dailyKeyMatch id did dt { x with level := level, time := time }
              = dailyKeyMatch id did dt x := by simp [dailyKeyMatch]
          simp [hx, this]
        · simp [hx])
      s.daily_races
    rw [heq]
    exact h
  · rw [if_neg h]
    simp [List.any_append, dailyKeyMatch]

/-- C8: for every store and key, `register_daily` then `delete_from_daily`
yields a state where `has_submitted_daily` is false and
`has_registered_daily` is true; and `delete_from_daily` on a key with no
existing row leaves the store unchanged (zero rows affected, no error). -/
theorem daily_withdraw_spec (s : Store) (id did dt level time : Int) :
    has_submitted_daily
        (delete_from_daily (register_daily s id did dt level time) id did dt) id did dt
      = false ∧
    has_registered_daily
        (delete_from_daily (register_daily s id did dt level time) id did dt) id did dt
      = true ∧
    ((∀ row ∈ s.daily_races, dailyKeyMatch id did dt row = false) →
      delete_from_daily s id did dt = s) := by
  refine ⟨?_, ?_, ?_⟩
  · exact submitted_after_delete id did dt (register_daily s id did dt level time).daily_races
  · show ((register_daily s id did dt level time).daily_races.map
        (fun row => if dailyKeyMatch id did dt row then { row with level := -1 } else row)).any
        (dailyKeyMatch id did dt) = true
    rw [any_key_after_delete]
    exact any_key_register_daily s id did dt level time
  · intro hnone
    have hmap := map_id_of_mem
      (fun row => if dailyKeyMatch id did dt row then { row with level := -1 } else row)
      s.daily_races
      (by
        intro x hx
        simp [hnone x hx])
    unfold delete_from_daily
    rw [hmap]

/-! ## C7: `register_user` is an idempotent name-only upsert -/

theorem upsertUserRows_key_pres (id : Int) (name : String) :
    ∀ x : UserRow,
      ((if x.discord_id == id then { x with name := name } else x).discord_id == id)
        = (x.discord_id == id) := by
  intro x
  by_cases hx : x.discord_id = id <;> simp [hx]

theorem upsertUserRows_any (id : Int) (name : String) (l : List UserRow) :
    (upsertUserRows id name l).any (fun u => u.discord_id == id) = true := by
  unfold upsertUserRows
  by_cases h : l.any (fun u => u.discord_id == id) = true
  · rw [if_pos h, any_map_eq _ _ _ (upsertUserRows_key_pres id name) l]
    exact h
  · rw [if_neg h]
    simp [List.any_append, newUserRow]

theorem upsertUserRows_pairwise (id : Int) (name : String) (l : List UserRow)
    (h : l.Pairwise (fun a b => a.discord_id ≠ b.discord_id)) :
    (upsertUserRows id name l).Pairwise (fun a b => a.discord_id ≠ b.discord_id) := by
  have hid : ∀ x : UserRow,
      (if x.discord_id == id then { x with name := name } else x).discord_id
        = x.discord_id := by
    intro x
    by_cases hx : x.discord_id = id <;> simp [hx]
  unfold upsertUserRows
  by_cases hany : l.any (fun u => u.discord_id == id) = true
  · rw [if_pos hany, List.pairwise_map]
    refine h.imp fun hab => ?_
    rw [hid, hid]
    exact hab
  · rw [if_neg hany, List.pairwise_append]
    refine ⟨h, List.pairwise_singleton _ _, ?_⟩
    intro a ha b hb
    have hb' : b = newUserRow id name := by simpa using hb
    have hak : (a.discord_id == id) = false := by
      cases hpa : (a.discord_id == id)
      · rfl
      · exact absurd (List.any_eq_true.mpr ⟨a, ha, hpa⟩) hany
    have : a.discord_id ≠ id := by simpa using hak
    rw [hb']
    simpa [newUserRow] using this

theorem pairwise_filter_key_len (id : Int) :
    ∀ l : List UserRow, l.Pairwise (fun a b => a.discord_id ≠ b.discord_id) →
      (l.filter (fun u => u.discord_id == id)).length ≤ 1
  | [], _ => by simp
  | x :: xs, h => by
      rcases List.pairwise_cons.mp h with ⟨hx, hxs⟩
      by_cases hxid : (x.discord_id == id) = true
      · have hxid' : x.discord_id = id := by simpa using hxid
        have hrest : xs.filter (fun u => u.discord_id == id) = [] := by
          rw [List.filter_eq_nil_iff]
          intro b hb hpb
          exact hx b hb (by simp at hpb; rw [hxid', hpb])
        simp [List.filter, hxid, hrest]
      · simp only [List.filter, hxid]
        exact pairwise_filter_key_len id xs hxs

theorem upsertUserRows_count (id : Int) (name : String) (l : List UserRow)
    (h : l.Pairwise (fun a b => a.discord_id ≠ b.discord_id)) :
    ((upsertUserRows id name l).filter (fun u => u.discord_id == id)).length = 1 := by
  have hle := pairwise_filter_key_len id _ (upsertUserRows_pairwise id name l h)
  rcases List.any_eq_true.mp (upsertUserRows_any id name l) with ⟨x, hx, hpx⟩
  have hmem : x ∈ (upsertUserRows id name l).filter (fun u => u.discord_id == id) :=
    List.mem_filter.mpr ⟨hx, hpx⟩
  have hpos := List.length_pos.mpr (List.ne_nil_of_mem hmem)
  omega

theorem upsertUserRows_name (id : Int) (name : String) (l : List UserRow) :
    ∀ u ∈ upsertUserRows id name l, u.discord_id = id → u.name = name := by
  intro u hu hid
  unfold upsertUserRows at hu
  by_cases hany : l.any (fun u => u.discord_id == id) = true
  · rw [if_pos hany] at hu
    rcases List.mem_map.mp hu with ⟨x, hx, hfx⟩
    by_cases hxid : x.discord_id = id
    · rw [← hfx]
      simp [hxid]
    · rw [← hfx] at hid
      simp [hxid] at hid
  · rw [if_neg hany] at hu
    rcases List.mem_append.mp hu with hul | hun
    · exact absurd (List.any_eq_true.mpr ⟨u, hul, by simp [hid]⟩) hany
    · have : u = newUserRow id name := by simpa using hun
      rw [this]
      rfl

theorem upsertUserRows_others (id : Int) (name : String) (l : List UserRow) :
    (upsertUserRows id name l).filter (fun u => !(u.discord_id == id))
      = l.filter (fun u => !(u.discord_id == id)) := by
  unfold upsertUserRows
  by_cases hany : l.any (fun u => u.discord_id == id) = true
  · rw [if_pos hany,
      filter_map_of_pred _ _ (fun x => by rw [Bool.not_inj_iff, upsertUserRows_key_pres]) l,
      map_id_of_mem]
    intro x hx
    rcases List.mem_filter.mp hx with ⟨_, hpx⟩
    have : ¬(x.discord_id = id) := by simpa using hpx
    simp [this]
  · rw [if_neg hany, List.filter_append]
    simp [newUserRow]

theorem upsertUserRows_idem (id : Int) (name : String) (l : List UserRow)
    (hany : l.any (fun u => u.discord_id == id) = true)
    (hname : ∀ u ∈ l, u.discord_id = id → u.name = name) :
    upsertUserRows id name l = l := by
  unfold upsertUserRows
  rw [if_pos hany, map_id_of_mem]
  intro x hx
  by_cases hxid : x.discord_id = id
  · have hn := hname x hx hxid
    have hbeq : (x.discord_id == id) = true := by simp [hxid]
    show (if x.discord_id == id then ({ x with name := name } : UserRow) else x) = x
    rw [if_pos hbeq]
    cases x
    simp_all
  · simp [hxid]

/-- C7: two `register_user` calls on the same id with names `n1`, `n2` leave
exactly one `user_data` row for that id, its name is `n2`, every other field
of that row is unchanged from the pre-existing row (when there was one), all
other rows are untouched, and repeating the call with the same arguments is
a no-op. -/
theorem register_user_upsert_spec (s : Store) (id : Int) (n1 n2 : String)
    (hids : s.user_data.Pairwise (fun a b => a.discord_id ≠ b.discord_id)) :
    ((register_user (register_user s id n1) id n2).user_data.filter
        (fun u => u.discord_id == id)).length = 1 ∧
    (∀ u ∈ (register_user (register_user s id n1) id n2).user_data,
      u.discord_id = id → u.name = n2) ∧
    (∀ u ∈ (register_user (register_user s id n1) id n2).user_data, u.discord_id = id →
      ∀ u0 ∈ s.user_data, u0.discord_id = id → sameExceptName u0 u) ∧
    ((register_user (register_user s id n1) id n2).user_data.filter
        (fun u => !(u.discord_id == id)))
      = s.user_data.filter (fun u => !(u.discord_id == id)) ∧
    register_user (register_user (register_user s id n1) id n2) id n2
      = register_user (register_user s id n1) id n2 := by
  have hpw1 := upsertUserRows_pairwise id n1 s.user_data hids
  refine ⟨upsertUserRows_count id n2 _ hpw1, upsertUserRows_name id n2 _, ?_, ?_, ?_⟩
  · intro u hu hid u0 h0mem h0id
    have hany : s.user_data.any (fun u => u.discord_id == id) = true :=
      List.any_eq_true.mpr ⟨u0, h0mem, by simp [h0id]⟩
    have hs1 : (register_user s id n1).user_data = s.user_data.map
        (fun u => if u.discord_id == id then { u with name := n1 } else u) := by
      show upsertUserRows id n1 s.user_data = _
      unfold upsertUserRows
      rw [if_pos hany]
    have hany1 : ((register_user s id n1).user_data.any
        (fun u => u.discord_id == id)) = true := upsertUserRows_any id n1 s.user_data
    have hs2 : (register_user (register_user s id n1) id n2).user_data =
        (register_user s id n1).user_data.map
          (fun u => if u.discord_id == id then { u with name := n2 } else u) := by
      show upsertUserRows id n2 (register_user s id n1).user_data = _
      unfold upsertUserRows
      rw [if_pos hany1]
    have hval : ({ u0 with name := n2 } : UserRow) ∈
        (register_user (register_user s id n1) id n2).user_data := by
      rw [hs2, hs1]
      refine List.mem_map.mpr ⟨{ u0 with name := n1 }, ?_, by simp [h0id]⟩
      exact List.mem_map.mpr ⟨u0, h0mem, by simp [h0id]⟩
    have hpw2 := upsertUserRows_pairwise id n2 _ hpw1
    have hu2 : u = { u0 with name := n2 } :=
      pairwise_key_inj (fun u => u.discord_id)
        (register_user (register_user s id n1) id n2).user_data hpw2 u hu
        { u0 with name := n2 } hval
        (by show u.discord_id = u0.discord_id; rw [hid, h0id])
    rw [hu2]
    exact ⟨rfl, rfl, rfl, rfl, rfl, rfl, rfl⟩
  · show (upsertUserRows id n2 (register_user s id n1).user_data).filter _ = _
    rw [upsertUserRows_others]
    show (upsertUserRows id n1 s.user_data).filter _ = _
    rw [upsertUserRows_others]
  · have heq : upsertUserRows id n2
        (register_user (register_user s id n1) id n2).user_data
      = (register_user (register_user s id n1) id n2).user_data :=
      upsertUserRows_idem id n2 _
        (upsertUserRows_any id n2 (upsertUserRows id n1 s.user_data))
        (upsertUserRows_name id n2 (upsertUserRows id n1 s.user_data))
    show { register_user (register_user s id n1) id n2 with
        user_data := upsertUserRows id n2
          (register_user (register_user s id n1) id n2).user_data }
      = register_user (register_user s id n1) id n2
    rw [heq]

/-- C7 witness: two calls on the single-row store `storeU7`. -/
theorem register_user_upsert_spec_witness :
    ((register_user (register_user storeU7 7 "x") 7 "y").user_data.filter
        (fun u => u.discord_id == 7)).length = 1 ∧
    register_user (register_user (register_user storeU7 7 "x") 7 "y") 7 "y"
      = register_user (register_user storeU7 7 "x") 7 "y" :=
  ⟨(register_user_upsert_spec storeU7 7 "x" "y" (by decide)).1,
   (register_user_upsert_spec storeU7 7 "x" "y" (by decide)).2.2.2.2⟩

/-! ## C9: `get_prefs` fails exactly on a missing row -/

/-- C9: `get_prefs` hard-fails (modelled `none`, the `TypeError` on
subscripting Python `None`) exactly when no `user_data` row has the id; when
the row exists it returns that row's stored `daily_alert` and `race_alert`
flags.  The call executes a single `SELECT` under `commit=False`, so it is a
pure read of the store. -/
theorem get_prefs_spec (s : Store) (id : Int)
    (hids : s.user_data.Pairwise (fun a b => a.discord_id ≠ b.discord_id)) :
    (get_prefs s id = none ↔ ∀ u ∈ s.user_data, u.discord_id ≠ id) ∧
    ∀ u ∈ s.user_data, u.discord_id = id →
      get_prefs s id = some ⟨u.daily_alert, u.race_alert⟩ := by
  constructor
  · constructor
    · intro hnone u hu hid
      have hsome : (s.user_data.find? (fun u => u.discord_id == id)).isSome := by
        rw [List.find?_isSome]
        exact ⟨u, hu, by simp [hid]⟩
      rcases Option.isSome_iff_exists.mp hsome with ⟨v, hv⟩
      rw [get_prefs, hv] at hnone
      exact Option.noConfusion hnone
    · intro hne
      have hnone : s.user_data.find? (fun u => u.discord_id == id) = none := by
        rw [List.find?_eq_none]
        intro u hu hp
        exact hne u hu (by simpa using hp)
      rw [get_prefs, hnone]
  · intro u hu hid
    have hsome : (s.user_data.find? (fun u => u.discord_id == id)).isSome := by
      rw [List.find?_isSome]
      exact ⟨u, hu, by simp [hid]⟩
    rcases Option.isSome_iff_exists.mp hsome with ⟨v, hv⟩
    have hvkey := List.find?_some hv
    have hvid : v.discord_id = id := by simpa using hvkey
    have hvmem := List.mem_of_find?_eq_some hv
    have hvu : v = u :=
      pairwise_key_inj (fun u => u.discord_id) s.user_data hids v hvmem u hu
        (by show v.discord_id = u.discord_id; rw [hvid, hid])
    rw [get_prefs, hv, hvu]

/-- C9 witness: the single-row store `storeU7` at the stored id. -/
theorem get_prefs_spec_witness :
    get_prefs storeU7 7 = some ⟨true, false⟩ :=
  (get_prefs_spec storeU7 7 (by decide)).2
    ⟨7, "u", some "tw", some "rt", some "tz", some "info", true, false⟩ (by decide) rfl

/-! ## C10: the profile setters never create rows and touch one column -/

/-- C10: `set_timezone`, `set_rtmp`, `set_twitch` and `set_user_info` are
plain `UPDATE ... WHERE discord_id=%s` statements: with no matching row each
is a silent no-op; with matching rows each rewrites only its own named
column of those rows, leaving every other field, every other row (the lists
stay index-aligned, witnessed by `Forall₂`), and every other table
unchanged. -/
theorem profile_setters_spec (s : Store) (id : Int) (tz rt tw ui : String) :
    ((∀ u ∈ s.user_data, u.discord_id ≠ id) →
      set_timezone s id tz = s ∧ set_rtmp s id rt = s ∧
      set_twitch s id tw = s ∧ set_user_info s id ui = s) ∧
    List.Forall₂ (fun u v => sameExceptTimezone u v ∧
        (u.discord_id = id → v.timezone = some tz) ∧
        (u.discord_id ≠ id → v.timezone = u.timezone))
      s.user_data (set_timezone s id tz).user_data ∧
    List.Forall₂ (fun u v => sameExceptRtmp u v ∧
        (u.discord_id = id → v.rtmp_name = some rt) ∧
        (u.discord_id ≠ id → v.rtmp_name = u.rtmp_name))
      s.user_data (set_rtmp s id rt).user_data ∧
    List.Forall₂ (fun u v => sameExceptTwitch u v ∧
        (u.discord_id = id → v.twitch_name = some tw) ∧
        (u.discord_id ≠ id → v.twitch_name = u.twitch_name))
      s.user_data (set_twitch s id tw).user_data ∧
    List.Forall₂ (fun u v => sameExceptUserInfo u v ∧
        (u.discord_id = id → v.user_info = some ui) ∧
        (u.discord_id ≠ id → v.user_info = u.user_info))
      s.user_data (set_user_info s id ui).user_data ∧
    (set_timezone s id tz).race_data = s.race_data ∧
    (set_timezone s id tz).racer_data = s.racer_data ∧
    (set_timezone s id tz).daily_races = s.daily_races ∧
    (set_timezone s id tz).ladder_data = s.ladder_data ∧
    (set_rtmp s id rt).race_data = s.race_data ∧
    (set_rtmp s id rt).racer_data = s.racer_data ∧
    (set_rtmp s id rt).daily_races = s.daily_races ∧
    (set_rtmp s id rt).ladder_data = s.ladder_data ∧
    (set_twitch s id tw).race_data = s.race_data ∧
    (set_twitch s id tw).racer_data = s.racer_data ∧
    (set_twitch s id tw).daily_races = s.daily_races ∧
    (set_twitch s id tw).ladder_data = s.ladder_data ∧
    (set_user_info s id ui).race_data = s.race_data ∧
    (set_user_info s id ui).racer_data = s.racer_data ∧
    (set_user_info s id ui).daily_races = s.daily_races ∧
    (set_user_info s id ui).ladder_data = s.ladder_data := by
  refine ⟨?_, ?_, ?_, ?_, ?_, rfl, rfl, rfl, rfl, rfl, rfl, rfl, rfl,
    rfl, rfl, rfl, rfl, rfl, rfl, rfl, rfl⟩
  · intro hne
    refine ⟨?_, ?_, ?_, ?_⟩ <;>
      first
      | (unfold set_timezone
         rw [map_id_of_mem _ s.user_data (by intro u hu; simp [hne u hu])])
      | (unfold set_rtmp
         rw [map_id_of_mem _ s.user_data (by intro u hu; simp [hne u hu])])
      | (unfold set_twitch
         rw [map_id_of_mem _ s.user_data (by intro u hu; simp [hne u hu])])
      | (unfold set_user_info
         rw [map_id_of_mem _ s.user_data (by intro u hu; simp [hne u hu])])
  · rw [show (set_timezone s id tz).user_data = s.user_data.map
        (fun u => if u.discord_id == id then { u with timezone := some tz } else u) from rfl,
      List.forall₂_map_right_iff, List.forall₂_same]
    intro u _
    by_cases hu : u.discord_id = id <;>
      simp [hu, sameExceptTimezone]
  · rw [show (set_rtmp s id rt).user_data = s.user_data.map
        (fun u => if u.discord_id == id then { u with rtmp_name := some rt } else u) from rfl,
      List.forall₂_map_right_iff, List.forall₂_same]
    intro u _
    by_cases hu : u.discord_id = id <;>
      simp [hu, sameExceptRtmp]
  · rw [show (set_twitch s id tw).user_data = s.user_data.map
        (fun u => if u.discord_id == id then { u with twitch_name := some tw } else u) from rfl,
      List.forall₂_map_right_iff, List.forall₂_same]
    intro u _
    by_cases hu : u.discord_id = id <;>
      simp [hu, sameExceptTwitch]
  · rw [show (set_user_info s id ui).user_data = s.user_data.map
        (fun u => if u.discord_id == id then { u with user_info := some ui } else u) from rfl,
      List.forall₂_map_right_iff, List.forall₂_same]
    intro u _
    by_cases hu : u.discord_id = id <;>
      simp [hu, sameExceptUserInfo]

/-- C10 witness: on `storeU7`, id 99 matches no row, so all four setters
are no-ops. -/
theorem profile_setters_spec_witness :
    set_timezone storeU7 99 "a" = storeU7 ∧ set_rtmp storeU7 99 "b" = storeU7 ∧
    set_twitch storeU7 99 "c" = storeU7 ∧ set_user_info storeU7 99 "d" = storeU7 :=
  (profile_setters_spec storeU7 99 "a" "b" "c" "d").1 (by decide)

/-- C8 witness at a concrete key on the empty store. -/
theorem daily_withdraw_spec_witness :
    has_submitted_daily (delete_from_daily (register_daily emptyStore 1 5 0 3 100) 1 5 0) 1 5 0
      = false ∧
    delete_from_daily emptyStore 1 5 0 = emptyStore :=
  ⟨(daily_withdraw_spec emptyStore 1 5 0 3 100).1,
   (daily_withdraw_spec emptyStore 1 5 0 3 100).2.2 (by decide)⟩

/-! ## C3: race_id allocation is max-plus-one and strictly increasing -/

theorem maxRaceId_spec :
    ∀ l : List RaceRow, (l = [] ∧ maxRaceId l = none) ∨
      (∃ rd ∈ l, maxRaceId l = some rd.race_id ∧ ∀ rd2 ∈ l, rd2.race_id ≤ rd.race_id)
  | [] => Or.inl ⟨rfl, rfl⟩
  | rd :: rds => by
      rcases maxRaceId_spec rds with ⟨hnil, hnone⟩ | ⟨rm, hm, hmax, hall⟩
      · right
        refine ⟨rd, List.mem_cons_self rd rds, ?_, ?_⟩
        · show (match maxRaceId rds with
              | none => some rd.race_id
              | some m => some (max rd.race_id m)) = some rd.race_id
          rw [hnone]
        · intro rd2 h2
          rcases List.mem_cons.mp h2 with h | h
          · rw [h]
          · rw [hnil] at h
            exact absurd h (List.not_mem_nil rd2)
      · right
        by_cases hle : rm.race_id ≤ rd.race_id
        · refine ⟨rd, List.mem_cons_self rd rds, ?_, ?_⟩
          · show (match maxRaceId rds with
                | none => some rd.race_id
                | some m => some (max rd.race_id m)) = some rd.race_id
            rw [hmax]
            show some (max rd.race_id rm.race_id) = some rd.race_id
            rw [max_eq_left hle]
          · intro rd2 h2
            rcases List.mem_cons.mp h2 with h | h
            · rw [h]
            · exact (hall rd2 h).trans hle
        · have hle' : rd.race_id ≤ rm.race_id := le_of_not_le hle
          refine ⟨rm, List.mem_cons_of_mem rd hm, ?_, ?_⟩
          · show (match maxRaceId rds with
                | none => some rd.race_id
                | some m => some (max rd.race_id m)) = some rm.race_id
            rw [hmax]
            show some (max rd.race_id rm.race_id) = some rm.race_id
            rw [max_eq_right hle']
          · intro rd2 h2
            rcases List.mem_cons.mp h2 with h | h
            · rw [h]
              exact hle'
            · exact hall rd2 h

theorem maxRaceId_append_sing (x : RaceRow) :
    ∀ l : List RaceRow, maxRaceId (l ++ [x]) =
      some (match maxRaceId l with
            | none => x.race_id
            | some m => max m x.race_id)
  | [] => rfl
  | rd :: rds => by
      show (match maxRaceId (rds ++ [x]) with
          | none => some rd.race_id
          | some m => some (max rd.race_id m)) = _
      rw [maxRaceId_append_sing x rds]
      cases h : maxRaceId rds
      · simp [maxRaceId, h]
      · simp [maxRaceId, h, max_assoc]

theorem racerLoop_race_data (rid : Int) :
    ∀ (l : List Racer) (rank : Int) (s0 : Store),
      (runStmts s0 (racerLoop rid rank l)).race_data = s0.race_data
  | [], _, _ => rfl
  | r :: rs, rank, s0 => by
      have hstep : runStmts s0 (racerLoop rid rank (r :: rs)) =
          runStmts (applyStmt (applyStmt s0 (Stmt.insertRacer (racerRowOf rid rank r)))
              (Stmt.upsertUser r.id r.name))
            (racerLoop rid (if r.is_finished then rank + 1 else rank) rs) := rfl
      rw [hstep, racerLoop_race_data rid rs _ _]
      rfl

theorem record_race_race_data (s : Store) (race : Race) :
    (record_race s race).race_data = s.race_data ++ [raceRowOf race (new_raceid s)] := by
  show (runStmts (applyStmt s (Stmt.insertRace (raceRowOf race (new_raceid s))))
      (racerLoop (new_raceid s) 1 (sortedRacers race.racers))).race_data = _
  rw [racerLoop_race_data]
  rfl

theorem new_raceid_shift (s : Store) (race : Race) :
    new_raceid (record_race s race) = new_raceid s + 1 := by
  have h1 : maxRaceId (record_race s race).race_data =
      some (match maxRaceId s.race_data with
            | none => (raceRowOf race (new_raceid s)).race_id
            | some m => max m (raceRowOf race (new_raceid s)).race_id) := by
    rw [record_race_race_data, maxRaceId_append_sing]
  cases h : maxRaceId s.race_data with
  | none =>
      have h2 : maxRaceId (record_race s race).race_data = some (new_raceid s) := by
        rw [h1, h]
        rfl
      show (match maxRaceId (record_race s race).race_data with
            | none => 0
            | some m => m + 1) = new_raceid s + 1
      rw [h2]
  | some m =>
      have hm : new_raceid s = m + 1 := by
        show (match maxRaceId s.race_data with
              | none => 0
              | some m => m + 1) = m + 1
        rw [h]
      have h2 : maxRaceId (record_race s race).race_data = some (new_raceid s) := by
        rw [h1, h]
        show some (max m (new_raceid s)) = some (new_raceid s)
        rw [max_eq_right (by omega : m ≤ new_raceid s)]
      show (match maxRaceId (record_race s race).race_data with
            | none => 0
            | some m => m + 1) = new_raceid s + 1
      rw [h2]

/-- C3: `new_raceid` is 0 on an empty race table and otherwise one more than
the maximum persisted `race_id`; it is strictly greater than every existing
`race_id` (so ids are never reused), the recorded race persists a row with
that id, and the id assigned by the next `record_race` call against the
updated store is again one larger — successive calls yield a strictly
increasing id sequence recomputed from the persisted maximum. -/
theorem race_id_allocation_spec (s : Store) (race : Race) :
    (s.race_data = [] → new_raceid s = 0) ∧
    (s.race_data ≠ [] → ∃ rd ∈ s.race_data,
      (∀ rd2 ∈ s.race_data, rd2.race_id ≤ rd.race_id) ∧ new_raceid s = rd.race_id + 1) ∧
    (∀ rd ∈ s.race_data, rd.race_id < new_raceid s) ∧
    (∃ rd ∈ (record_race s race).race_data, rd.race_id = new_raceid s) ∧
    new_raceid (record_race s race) = new_raceid s + 1 := by
  refine ⟨?_, ?_, ?_, ?_, new_raceid_shift s race⟩
  · intro h
    unfold new_raceid
    rw [h]
    rfl
  · intro hne
    rcases maxRaceId_spec s.race_data with ⟨hnil, _⟩ | ⟨rd, hmem, hmax, hall⟩
    · exact absurd hnil hne
    · exact ⟨rd, hmem, hall, by unfold new_raceid; rw [hmax]⟩
  · intro rd hmem
    rcases maxRaceId_spec s.race_data with ⟨hnil, _⟩ | ⟨rm, hm, hmax, hall⟩
    · rw [hnil] at hmem
      exact absurd hmem (List.not_mem_nil rd)
    · have := hall rd hmem
      unfold new_raceid
      rw [hmax]
      show rd.race_id < rm.race_id + 1
      omega
  · refine ⟨raceRowOf race (new_raceid s), ?_, rfl⟩
    rw [record_race_race_data]
    exact List.mem_append.mpr (Or.inr (List.mem_cons_self _ _))

/-- C3 witness: recording `raceA` against the one-race store `storeR5`. -/
theorem race_id_allocation_spec_witness :
    new_raceid (record_race storeR5 raceA) = new_raceid storeR5 + 1 ∧
    ∃ rd ∈ storeR5.race_data,
      (∀ rd2 ∈ storeR5.race_data, rd2.race_id ≤ rd.race_id) ∧
      new_raceid storeR5 = rd.race_id + 1 :=
  ⟨(race_id_allocation_spec storeR5 raceA).2.2.2.2,
   (race_id_allocation_spec storeR5 raceA).2.1 (by decide)⟩

/-! ## C1: rank assignment in `record_race` -/

theorem foldl_maxTime_ge :
    ∀ (l : List Racer) (init : Int),
      init ≤ l.foldl (fun m r => if r.is_finished then max r.time m else m) init
  | [], _ => le_refl _
  | r :: rs, init => by
      rw [List.foldl_cons]
      refine le_trans ?_ (foldl_maxTime_ge rs _)
      by_cases hr : r.is_finished = true <;> simp [hr, le_max_right]

theorem mem_le_foldl_maxTime :
    ∀ (l : List Racer) (init : Int) (r : Racer), r ∈ l → r.is_finished = true →
      r.time ≤ l.foldl (fun m x => if x.is_finished then max x.time m else m) init
  | [], _, r, hr, _ => absurd hr (List.not_mem_nil r)
  | x :: xs, init, r, hr, hf => by
      rw [List.foldl_cons]
      rcases List.mem_cons.mp hr with h | h
      · subst h
        refine le_trans ?_ (foldl_maxTime_ge xs _)
        simp [hf, le_max_left]
      · exact mem_le_foldl_maxTime xs _ r h hf

theorem time_le_maxTimeOf (racers : List Racer) (r : Racer) (hr : r ∈ racers)
    (hf : r.is_finished = true) : r.time ≤ maxTimeOf racers :=
  mem_le_foldl_maxTime racers 0 r hr hf

theorem orderedInsert_append_of_rel {α : Type} (r : α → α → Prop) [DecidableRel r] (a : α) :
    ∀ (xs ys : List α), (∀ y ∈ ys, r a y) →
      List.orderedInsert r a (xs ++ ys) = List.orderedInsert r a xs ++ ys
  | [], ys, h => by
      cases ys with
      | nil => rfl
      | cons y ys2 =>
          show List.orderedInsert r a (y :: ys2) = [a] ++ (y :: ys2)
          rw [List.orderedInsert_of_le r _ (h y (List.mem_cons_self y ys2))]
          rfl
  | x :: xs, ys, h => by
      show (if r a x then a :: (x :: (xs ++ ys)) else x :: List.orderedInsert r a (xs ++ ys))
        = (if r a x then a :: x :: xs else x :: List.orderedInsert r a xs) ++ ys
      by_cases hax : r a x
      · rw [if_pos hax, if_pos hax]
        rfl
      · rw [if_neg hax, if_neg hax, orderedInsert_append_of_rel r a xs ys h]
        rfl

theorem orderedInsert_append_of_not_rel {α : Type} (r : α → α → Prop) [DecidableRel r] (a : α) :
    ∀ (xs ys : List α), (∀ x ∈ xs, ¬ r a x) →
      List.orderedInsert r a (xs ++ ys) = xs ++ List.orderedInsert r a ys
  | [], _, _ => rfl
  | x :: xs, ys, h => by
      show (if r a x then a :: (x :: (xs ++ ys)) else x :: List.orderedInsert r a (xs ++ ys))
        = x :: (xs ++ List.orderedInsert r a ys)
      rw [if_neg (h x (List.mem_cons_self x xs)),
        orderedInsert_append_of_not_rel r a xs ys (fun z hz => h z (List.mem_cons_of_mem x hz))]

theorem insertionSort_fin_split (key : Racer → Int) :
    ∀ l : List Racer,
      (∀ a ∈ l, a.is_finished = true → ∀ b ∈ l, b.is_finished = false → key a < key b) →
      (∀ a ∈ l, a.is_finished = false → ∀ b ∈ l, b.is_finished = false → key a ≤ key b) →
      List.insertionSort (fun a b => key a ≤ key b) l
        = List.insertionSort (fun a b => key a ≤ key b) (l.filter (fun x => x.is_finished))
          ++ l.filter (fun x => !x.is_finished)
  | [] => fun _ _ => rfl
  | r :: l => by
      intro hfn hnn
      have hfn2 : ∀ a ∈ l, a.is_finished = true → ∀ b ∈ l, b.is_finished = false →
          key a < key b := fun a ha h1 b hb h2 =>
        hfn a (List.mem_cons_of_mem r ha) h1 b (List.mem_cons_of_mem r hb) h2
      have hnn2 : ∀ a ∈ l, a.is_finished = false → ∀ b ∈ l, b.is_finished = false →
          key a ≤ key b := fun a ha h1 b hb h2 =>
        hnn a (List.mem_cons_of_mem r ha) h1 b (List.mem_cons_of_mem r hb) h2
      have ih := insertionSort_fin_split key l hfn2 hnn2
      show List.orderedInsert (fun a b => key a ≤ key b) r
          (List.insertionSort (fun a b => key a ≤ key b) l) = _
      rw [ih]
      by_cases hr : r.is_finished = true
      · have hys : ∀ y ∈ l.filter (fun x => !x.is_finished),
            (fun a b => key a ≤ key b) r y := by
          intro y hy
          rcases List.mem_filter.mp hy with ⟨hyl, hyn⟩
          have hyn2 : y.is_finished = false := by simpa using hyn
          exact le_of_lt (hfn r (List.mem_cons_self r l) hr y (List.mem_cons_of_mem r hyl) hyn2)
        rw [orderedInsert_append_of_rel _ r _ _ hys]
        have h1 : (r :: l).filter (fun x => x.is_finished)
            = r :: l.filter (fun x => x.is_finished) := by
          simp [List.filter, hr]
        have h2 : (r :: l).filter (fun x => !x.is_finished)
            = l.filter (fun x => !x.is_finished) := by
          simp [List.filter, hr]
        rw [h1, h2]
        rfl
      · have hr2 : r.is_finished = false := by simpa using hr
        have hxs : ∀ x ∈ List.insertionSort (fun a b => key a ≤ key b)
            (l.filter (fun x => x.is_finished)), ¬ (fun a b => key a ≤ key b) r x := by
          intro x hx
          have hx2 : x ∈ l.filter (fun x => x.is_finished) :=
            (List.perm_insertionSort _ _).subset hx
          rcases List.mem_filter.mp hx2 with ⟨hxl, hxf⟩
          have hlt := hfn x (List.mem_cons_of_mem r hxl) (by simpa using hxf)
            r (List.mem_cons_self r l) hr2
          exact fun hc => absurd hlt (not_lt.mpr hc)
        rw [orderedInsert_append_of_not_rel _ r _ _ hxs]
        have h3 : List.orderedInsert (fun a b => key a ≤ key b) r
            (l.filter (fun x => !x.is_finished))
            = r :: l.filter (fun x => !x.is_finished) := by
          cases hnf : l.filter (fun x => !x.is_finished) with
          | nil => rfl
          | cons y t =>
              have hy : y ∈ l.filter (fun x => !x.is_finished) := by
                rw [hnf]
                exact List.mem_cons_self y t
              rcases List.mem_filter.mp hy with ⟨hyl, hyn⟩
              exact List.orderedInsert_of_le _ _
                (hnn r (List.mem_cons_self r l) hr2 y (List.mem_cons_of_mem r hyl)
                  (by simpa using hyn))
        rw [h3]
        have h1 : (r :: l).filter (fun x => x.is_finished)
            = l.filter (fun x => x.is_finished) := by
          simp [List.filter, hr2]
        have h2 : (r :: l).filter (fun x => !x.is_finished)
            = r :: l.filter (fun x => !x.is_finished) := by
          simp [List.filter, hr2]
        rw [h1, h2]

theorem assignRanks_length (rid : Int) :
    ∀ (l : List Racer) (k : Int), (assignRanks rid k l).length = l.length
  | [], _ => rfl
  | r :: rs, k => by
      show (assignRanks rid (if r.is_finished then k + 1 else k) rs).length + 1
        = rs.length + 1
      rw [assignRanks_length rid rs _]

theorem assignRanks_append_fin (rid : Int) :
    ∀ (xs ys : List Racer) (k : Int), (∀ x ∈ xs, x.is_finished = true) →
      assignRanks rid k (xs ++ ys)
        = assignRanks rid k xs ++ assignRanks rid (k + (xs.length : Int)) ys
  | [], ys, k, _ => by simp [assignRanks]
  | x :: xs, ys, k, h => by
      have hx : x.is_finished = true := h x (List.mem_cons_self x xs)
      have hif : (if x.is_finished = true then k + 1 else k) = k + 1 := if_pos hx
      show racerRowOf rid k x
            :: assignRanks rid (if x.is_finished = true then k + 1 else k) (xs ++ ys)
          = (racerRowOf rid k x
            :: assignRanks rid (if x.is_finished = true then k + 1 else k) xs)
            ++ assignRanks rid (k + ((x :: xs).length : Int)) ys
      rw [hif, assignRanks_append_fin rid xs ys (k + 1)
        (fun z hz => h z (List.mem_cons_of_mem x hz))]
      have harith : k + 1 + (xs.length : Int) = k + (((x :: xs).length : Int)) := by
        simp only [List.length_cons]
        push_cast
        ring
      rw [harith]
      rfl

theorem assignRanks_nonfin (rid : Int) :
    ∀ (ys : List Racer) (k : Int), (∀ y ∈ ys, y.is_finished = false) →
      assignRanks rid k ys = ys.map (racerRowOf rid k)
  | [], _, _ => rfl
  | y :: ys, k, h => by
      have hy : y.is_finished = false := h y (List.mem_cons_self y ys)
      have hif : (if y.is_finished = true then k + 1 else k) = k := by
        rw [hy]
        rfl
      show racerRowOf rid k y
            :: assignRanks rid (if y.is_finished = true then k + 1 else k) ys
          = racerRowOf rid k y :: ys.map (racerRowOf rid k)
      rw [hif, assignRanks_nonfin rid ys k (fun z hz => h z (List.mem_cons_of_mem y hz))]

theorem assignRanks_exists_row (rid : Int) :
    ∀ (l : List Racer) (k : Int) (x : Racer), x ∈ l →
      ∃ row ∈ assignRanks rid k l, row.discord_id = x.id
  | [], _, x, hx => absurd hx (List.not_mem_nil x)
  | r :: rs, k, x, hx => by
      rcases List.mem_cons.mp hx with h | h
      · exact ⟨racerRowOf rid k r, List.mem_cons_self _ _, by subst h; rfl⟩
      · rcases assignRanks_exists_row rid rs (if r.is_finished then k + 1 else k) x h with
          ⟨row, hrow, hid⟩
        exact ⟨row, List.mem_cons_of_mem _ hrow, hid⟩

theorem assignRanks_fin_mem (rid : Int) :
    ∀ (xs : List Racer) (k : Int), (∀ x ∈ xs, x.is_finished = true) →
      xs.Pairwise (fun a b => a.time < b.time) →
      ∀ row ∈ assignRanks rid k xs, ∃ x ∈ xs,
        row = racerRowOf rid
          (k + ((xs.filter (fun g => decide (g.time < x.time))).length : Int)) x
  | [], _, _, _, row, hrow => absurd hrow (List.not_mem_nil row)
  | x :: xs, k, hfin, hp, row, hrow => by
      have hx : x.is_finished = true := hfin x (List.mem_cons_self x xs)
      have hif : (if x.is_finished = true then k + 1 else k) = k + 1 := if_pos hx
      rcases List.pairwise_cons.mp hp with ⟨hhead, htail⟩
      have hrow2 : row = racerRowOf rid k x ∨
          row ∈ assignRanks rid (k + 1) xs := by
        have : row ∈ racerRowOf rid k x
            :: assignRanks rid (if x.is_finished = true then k + 1 else k) xs := hrow
        rw [hif] at this
        exact List.mem_cons.mp this
      rcases hrow2 with h | h
      · refine ⟨x, List.mem_cons_self x xs, ?_⟩
        have hnil : (x :: xs).filter (fun g => decide (g.time < x.time)) = [] := by
          rw [List.filter_eq_nil_iff]
          intro b hb
          rcases List.mem_cons.mp hb with hbx | hbx
          · subst hbx
            simp
          · have := hhead b hbx
            simp
            omega
        rw [hnil, h]
        show racerRowOf rid k x = racerRowOf rid (k + ((0 : Nat) : Int)) x
        norm_num
      · rcases assignRanks_fin_mem rid xs (k + 1)
          (fun z hz => hfin z (List.mem_cons_of_mem x hz)) htail row h with ⟨z, hz, hzrow⟩
        refine ⟨z, List.mem_cons_of_mem x hz, ?_⟩
        have hcons : (x :: xs).filter (fun g => decide (g.time < z.time))
            = x :: xs.filter (fun g => decide (g.time < z.time)) := by
          have hd : decide (x.time < z.time) = true := decide_eq_true (hhead z hz)
          simp [List.filter_cons, hd]
        rw [hcons, hzrow]
        have harith : k + 1 + ((xs.filter (fun g => decide (g.time < z.time))).length : Int)
            = k + (((x :: xs.filter (fun g => decide (g.time < z.time))).length : Int)
              - ((0 : Nat) : Int)) + 0 := by
          simp only [List.length_cons]
          push_cast
          ring
        rw [harith]
        norm_num

theorem racerLoop_racer_data (rid : Int) :
    ∀ (l : List Racer) (rank : Int) (s0 : Store),
      (runStmts s0 (racerLoop rid rank l)).racer_data
        = s0.racer_data ++ assignRanks rid rank l
  | [], _, s0 => by simp [runStmts, racerLoop, assignRanks]
  | r :: rs, rank, s0 => by
      have hstep : runStmts s0 (racerLoop rid rank (r :: rs)) =
          runStmts (applyStmt (applyStmt s0 (Stmt.insertRacer (racerRowOf rid rank r)))
              (Stmt.upsertUser r.id r.name))
            (racerLoop rid (if r.is_finished then rank + 1 else rank) rs) := rfl
      rw [hstep, racerLoop_racer_data rid rs _ _]
      show (s0.racer_data ++ [racerRowOf rid rank r]) ++ _ = s0.racer_data ++ _
      rw [List.append_assoc]
      rfl

theorem record_race_racer_data (s : Store) (race : Race) :
    (record_race s race).racer_data
      = s.racer_data ++ raceResultRows race (new_raceid s) := by
  show (runStmts (applyStmt s (Stmt.insertRace (raceRowOf race (new_raceid s))))
      (racerLoop (new_raceid s) 1 (sortedRacers race.racers))).racer_data = _
  rw [racerLoop_racer_data]
  rfl

/-- C1 counterexample: for three finishers with times 10 < 20 < 30 and one
non-finisher (`raceA`), the persisted row of the non-finisher (discord_id 4)
carries rank 4 — the counter after three increments — not rank 3 as the
claim states. -/
theorem nonfinisher_rank_cex :
    ((record_race emptyStore raceA).racer_data.filter
        (fun row => row.discord_id == 4)).map (fun row => row.rank) = [4] ∧
    ¬ ((4 : Int) = 3) := by
  constructor
  · decide
  · decide

/-- C1 (amended): with pairwise-distinct racer ids and distinct finisher
times, `record_race` appends one racer row per racer; each finisher's row
carries rank 1 + (number of finishers with strictly smaller time) — so the
N finishers receive exactly the ranks 1..N in ascending time order — and
each non-finisher's row carries rank N + 1, the counter value after all N
finisher increments (1 when there is no finisher), one more than the rank
of the last finisher. -/
theorem record_race_rank_spec (s : Store) (race : Race)
    (hids : race.racers.Pairwise (fun a b => a.id ≠ b.id))
    (hdist : (race.racers.filter (fun x => x.is_finished)).Pairwise
      (fun a b => a.time ≠ b.time)) :
    (record_race s race).racer_data
      = s.racer_data ++ raceResultRows race (new_raceid s) ∧
    (raceResultRows race (new_raceid s)).length = race.racers.length ∧
    (∀ r ∈ race.racers, ∃ row ∈ raceResultRows race (new_raceid s),
      row.discord_id = r.id) ∧
    (∀ row ∈ raceResultRows race (new_raceid s), ∀ r ∈ race.racers,
      row.discord_id = r.id →
      (r.is_finished = false →
        row.rank = ((race.racers.filter (fun x => x.is_finished)).length : Int) + 1) ∧
      (r.is_finished = true →
        row.rank = (((race.racers.filter (fun x => x.is_finished)).filter
          (fun g => decide (g.time < r.time))).length : Int) + 1)) := by
  have hFfin : ∀ x ∈ race.racers.filter (fun x => x.is_finished),
      x.is_finished = true := by
    intro x hx
    simpa using (List.mem_filter.mp hx).2
  have hnFnon : ∀ y ∈ race.racers.filter (fun x => !x.is_finished),
      y.is_finished = false := by
    intro y hy
    simpa using (List.mem_filter.mp hy).2
  have hsplit : sortedRacers race.racers
      = List.insertionSort (raceRel race.racers)
          (race.racers.filter (fun x => x.is_finished))
        ++ race.racers.filter (fun x => !x.is_finished) := by
    show List.insertionSort (fun a b => sortKey (maxTimeOf race.racers + 1) a
        ≤ sortKey (maxTimeOf race.racers + 1) b) race.racers = _
    exact insertionSort_fin_split (sortKey (maxTimeOf race.racers + 1)) race.racers
      (fun a ha h1 b _ h2 => by
        have hbound := time_le_maxTimeOf race.racers a ha h1
        simp only [sortKey, h1, h2, if_true, if_pos]
        simp only [Bool.false_eq_true, if_false]
        omega)
      (fun a _ h1 b _ h2 => by
        simp [sortKey, h1, h2])
  have hpermF : (List.insertionSort (raceRel race.racers)
      (race.racers.filter (fun x => x.is_finished))).Perm
      (race.racers.filter (fun x => x.is_finished)) :=
    List.perm_insertionSort _ _
  have hsFfin : ∀ x ∈ List.insertionSort (raceRel race.racers)
      (race.racers.filter (fun x => x.is_finished)), x.is_finished = true :=
    fun x hx => hFfin x (hpermF.subset hx)
  haveI hTot : IsTotal Racer (raceRel race.racers) := ⟨fun a b => le_total _ _⟩
  haveI hTrans : IsTrans Racer (raceRel race.racers) :=
    ⟨fun a b c hab hbc => le_trans hab hbc⟩
  have hsorted : (List.insertionSort (raceRel race.racers)
      (race.racers.filter (fun x => x.is_finished))).Pairwise (raceRel race.racers) :=
    List.sorted_insertionSort (raceRel race.racers) _
  have hne2 : (List.insertionSort (raceRel race.racers)
      (race.racers.filter (fun x => x.is_finished))).Pairwise
      (fun a b => a.time ≠ b.time) :=
    (hpermF.pairwise_iff (fun h => h.symm)).mpr hdist
  have hlt : (List.insertionSort (raceRel race.racers)
      (race.racers.filter (fun x => x.is_finished))).Pairwise
      (fun a b => a.time < b.time) := by
    refine (hsorted.and hne2).imp_of_mem ?_
    intro a b ha hb hab
    rcases hab with ⟨hle, hneq⟩
    have ha2 := hsFfin a ha
    have hb2 := hsFfin b hb
    have hle2 : a.time ≤ b.time := by
      have hle3 := hle
      simp only [raceRel, sortKey, ha2, hb2, if_true, if_pos] at hle3
      exact hle3
    exact lt_of_le_of_ne hle2 hneq
  have hrows : raceResultRows race (new_raceid s)
      = assignRanks (new_raceid s) 1 (List.insertionSort (raceRel race.racers)
          (race.racers.filter (fun x => x.is_finished)))
        ++ (race.racers.filter (fun x => !x.is_finished)).map
            (racerRowOf (new_raceid s)
              (1 + ((race.racers.filter (fun x => x.is_finished)).length : Int))) := by
    show assignRanks (new_raceid s) 1 (sortedRacers race.racers) = _
    rw [hsplit, assignRanks_append_fin (new_raceid s) _ _ 1 hsFfin,
      assignRanks_nonfin (new_raceid s) _ _ hnFnon, hpermF.length_eq]
  refine ⟨record_race_racer_data s race, ?_, ?_, ?_⟩
  · show (assignRanks (new_raceid s) 1 (sortedRacers race.racers)).length = _
    rw [assignRanks_length]
    exact (List.perm_insertionSort _ _).length_eq
  · intro r hr
    exact assignRanks_exists_row (new_raceid s) (sortedRacers race.racers) 1 r
      ((List.perm_insertionSort _ _).mem_iff.mpr hr)
  · intro row hrow r hr hid
    rw [hrows] at hrow
    rcases List.mem_append.mp hrow with hA | hB
    · rcases assignRanks_fin_mem (new_raceid s) _ 1 hsFfin hlt row hA with ⟨x, hx, hxrow⟩
      have hxF : x ∈ race.racers.filter (fun x => x.is_finished) := hpermF.subset hx
      have hxfin : x.is_finished = true := hFfin x hxF
      have hxmem : x ∈ race.racers := (List.mem_filter.mp hxF).1
      have hxid : x.id = r.id := by
        rw [hxrow] at hid
        exact hid
      have hxr : x = r :=
        pairwise_key_inj (fun t => t.id) race.racers hids x hxmem r hr hxid
      constructor
      · intro hfalse
        rw [← hxr, hxfin] at hfalse
        exact Bool.noConfusion hfalse
      · intro _
        rw [hxrow]
        show (1 : Int) + (((List.insertionSort (raceRel race.racers)
            (race.racers.filter (fun x => x.is_finished))).filter
              (fun g => decide (g.time < x.time))).length : Int)
          = (((race.racers.filter (fun x => x.is_finished)).filter
              (fun g => decide (g.time < r.time))).length : Int) + 1
        rw [← hxr, (List.Perm.filter _ hpermF).length_eq]
        omega
    · rcases List.mem_map.mp hB with ⟨y, hy, hyrow⟩
      have hynon : y.is_finished = false := hnFnon y hy
      have hymem : y ∈ race.racers := (List.mem_filter.mp hy).1
      have hyid : y.id = r.id := by
        rw [← hyrow] at hid
        exact hid
      have hyr : y = r :=
        pairwise_key_inj (fun t => t.id) race.racers hids y hymem r hr hyid
      constructor
      · intro _
        rw [← hyrow]
        show (1 : Int) + ((race.racers.filter (fun x => x.is_finished)).length : Int)
          = ((race.racers.filter (fun x => x.is_finished)).length : Int) + 1
        omega
      · intro htrue
        rw [← hyr, hynon] at htrue
        exact Bool.noConfusion htrue

/-- C1 witness: the amended theorem applied to `raceA` on the empty store. -/
theorem record_race_rank_spec_witness :
    (record_race emptyStore raceA).racer_data
      = emptyStore.racer_data ++ raceResultRows raceA (new_raceid emptyStore) :=
  (record_race_rank_spec emptyStore raceA (by decide) (by decide)).1

/-! ## C4: the fastest-times leaderboard -/

/-- C4 counterexample: in `storeLB`, user alice has one qualifying Cadence
race (seed 111) and one private race with the same time 100 (seed 222); the
leaderboard returns two rows for alice, the second built from the private
race — the claim's "no private race" and "exactly one row per user" are
both false. -/
theorem leaderboard_private_dup_cex :
    get_fastest_times_leaderboard "Cadence" true 10 storeLB
      = [⟨"alice", 100, 111, "ts0"⟩, ⟨"alice", 100, 222, "ts1"⟩] ∧
    ((get_fastest_times_leaderboard "Cadence" true 10 storeLB).filter
        (fun row => row.name == "alice")).length = 2 ∧
    (storeLB.race_data.filter (fun rd => rd.seed == 222)).map
        (fun rd => rd.private_race) = [true] := by
  refine ⟨by decide, by decide, by decide⟩

/-- C4 (amended): the leaderboard returns at most `limit` rows ordered by
time ascending, and every returned row's time equals its user's minimum
qualifying time (minimum over non-private, seeded, level = -2, matching
races); but the row itself may be built from any joined racer/race pair of
that user whose time coincides with that minimum — including private or
otherwise non-qualifying races — so a user can occupy several rows. -/
theorem leaderboard_spec (char : String) (amp : Bool) (lim : Nat) (s : Store) :
    (get_fastest_times_leaderboard char amp lim s).length ≤ lim ∧
    (get_fastest_times_leaderboard char amp lim s).Pairwise
      (fun a b => a.time ≤ b.time) ∧
    ∀ row ∈ get_fastest_times_leaderboard char amp lim s,
      ∃ rr ∈ s.racer_data, ∃ rd ∈ s.race_data, ∃ u ∈ s.user_data,
        rd.race_id = rr.race_id ∧ u.discord_id = rr.discord_id ∧
        min_qual_time char amp s rr.discord_id = some rr.time ∧
        row = ⟨u.name, rr.time, rd.seed, rd.timestamp⟩ := by
  refine ⟨?_, ?_, ?_⟩
  · show ((List.insertionSort (fun a b : LBRow => a.time ≤ b.time)
        (outerRows char amp s)).take lim).length ≤ lim
    rw [List.length_take]
    exact min_le_left _ _
  · haveI : IsTotal LBRow (fun a b => a.time ≤ b.time) := ⟨fun a b => le_total _ _⟩
    haveI : IsTrans LBRow (fun a b => a.time ≤ b.time) :=
      ⟨fun a b c hab hbc => le_trans hab hbc⟩
    exact List.Pairwise.sublist (List.take_sublist _ _)
      (List.sorted_insertionSort (fun a b : LBRow => a.time ≤ b.time)
        (outerRows char amp s))
  · intro row hrow
    have hrow2 : row ∈ outerRows char amp s :=
      (List.perm_insertionSort _ _).subset ((List.take_sublist _ _).subset hrow)
    rcases List.mem_flatMap.mp hrow2 with ⟨p, hp, hrowp⟩
    rcases List.mem_flatMap.mp hp with ⟨rr, hrr, hprr⟩
    rcases List.mem_map.mp hprr with ⟨rd, hrd, hprd⟩
    rcases List.mem_filter.mp hrd with ⟨hrdmem, hrdkey⟩
    have hp1 : p.1 = rr := by rw [← hprd]
    have hp2 : p.2 = rd := by rw [← hprd]
    rw [hp1, hp2] at hrowp
    cases hm : min_qual_time char amp s rr.discord_id with
    | none =>
        rw [hm] at hrowp
        exact absurd hrowp (List.not_mem_nil row)
    | some m =>
        rw [hm] at hrowp
        have hrowp2 : row ∈ (if (rr.time == m) then
            (s.user_data.filter (fun u => u.discord_id == rr.discord_id)).map
              (fun u => (⟨u.name, rr.time, rd.seed, rd.timestamp⟩ : LBRow))
          else []) := hrowp
        by_cases htime : (rr.time == m) = true
        · rw [if_pos htime] at hrowp2
          rcases List.mem_map.mp hrowp2 with ⟨u, hu, hurow⟩
          rcases List.mem_filter.mp hu with ⟨humem, hukey⟩
          refine ⟨rr, hrr, rd, hrdmem, u, humem, ?_, ?_, ?_, ?_⟩
          · exact (by simpa using hrdkey : rd.race_id = rr.race_id)
          · exact (by simpa using hukey : u.discord_id = rr.discord_id)
          · rw [hm]
            have heq : rr.time = m := by simpa using htime
            rw [heq]
          · rw [← hurow]
        · rw [if_neg htime] at hrowp2
          exact absurd hrowp2 (List.not_mem_nil row)

/-- C4 witness: the amended characterization applied to the first returned
row on `storeLB`. -/
theorem leaderboard_spec_witness :
    ∃ rr ∈ storeLB.racer_data, ∃ rd ∈ storeLB.race_data, ∃ u ∈ storeLB.user_data,
      rd.race_id = rr.race_id ∧ u.discord_id = rr.discord_id ∧
      min_qual_time "Cadence" true storeLB rr.discord_id = some rr.time ∧
      (⟨"alice", 100, 111, "ts0"⟩ : LBRow) = ⟨u.name, rr.time, rd.seed, rd.timestamp⟩ :=
  (leaderboard_spec "Cadence" true 10 storeLB).2.2
    ⟨"alice", 100, 111, "ts0"⟩ (by decide)

end NecroDB
